import Mathlib

/-!
Formal model of src/admin/AdminLog.c (cjdns admin log streaming).

The C file maintains a fixed array of at most 64 subscriptions, a ring of 32
interned file name pointers, a match predicate with an interning side effect
(isMatch), a lazy per-log-call message builder (doLog / makeLogMessage) and the
two admin operations subscribe / unsubscribe.

C pointers to strings are modelled as a pair of an address (a natural number)
and the pointed-to contents; C pointer comparison is comparison of the
address component and strcmp is comparison of the contents component.
External collaborators that are not part of the repository under src/
(Log_levelForName, Hex_encode / Hex_decode, randombytes, the allocator and the
admin transport) are modelled from the spec; the allocator is modelled by the
numeric identity of the scoped allocation so that release events can be
observed, randomness and allocation freshness are supplied by the caller as
explicit arguments, and a send on the transport is modelled as a returned
value.
-/

namespace Cjdns

set_option maxRecDepth 10000

/-- Capacity of the subscription store, MAX_SUBSCRIPTIONS in the source. -/
def MAX_SUBSCRIPTIONS : Nat := 64

/-- Capacity of the interned file name ring, FILENAME_COUNT in the source.
The eviction line of the source spells it FILE_NAME_COUNT; both stand for
the same constant 32. -/
def FILENAME_COUNT : Nat := 32

/-- Modelled from the spec: the log level enumeration of util/Log.h, an
ordered enumeration from most verbose (KEYS) to least verbose (CRITICAL),
with an extra INVALID value returned for unrecognized names. -/
inductive Log_Level where
  | KEYS
  | DEBUG
  | INFO
  | WARN
  | ERROR
  | CRITICAL
  | INVALID
deriving DecidableEq, Repr, Inhabited

/-- Numeric value of a log level, giving the total order used by the
comparison in isMatch. -/
def Log_Level.toNat : Log_Level → Nat
  | .KEYS => 0
  | .DEBUG => 1
  | .INFO => 2
  | .WARN => 3
  | .ERROR => 4
  | .CRITICAL => 5
  | .INVALID => 6

/-- Modelled from the spec: name to level mapping of util/Log.h; an
unrecognized name maps to INVALID. -/
def levelForName (s : String) : Log_Level :=
  if s = "KEYS" then .KEYS
  else if s = "DEBUG" then .DEBUG
  else if s = "INFO" then .INFO
  else if s = "WARN" then .WARN
  else if s = "ERROR" then .ERROR
  else if s = "CRITICAL" then .CRITICAL
  else .INVALID

/-- Modelled from the spec: level to name mapping of util/Log.h. -/
def nameForLevel : Log_Level → String
  | .KEYS => "KEYS"
  | .DEBUG => "DEBUG"
  | .INFO => "INFO"
  | .WARN => "WARN"
  | .ERROR => "ERROR"
  | .CRITICAL => "CRITICAL"
  | .INVALID => "INVALID"

/-- A C string pointer: an address plus the pointed-to contents. Pointer
equality in the C source is equality of the id component; strcmp equality is
equality of the content component. -/
structure Ptr where
  id : Nat
  content : String
deriving DecidableEq, Repr, Inhabited

/-- One entry of the subscriptions array, struct Subscription in the source.
The scoped allocator of the subscription is modelled by the numeric identity
allocId of that allocation. When the source leaves internalName unassigned
(a subscribe call with no file argument never touches the bit, and the field
is never read while file is NULL) the model stores false, the zero value of
the containing struct at creation of the AdminLog. -/
structure Subscription where
  level : Log_Level
  internalName : Bool
  lineNum : Nat
  file : Option Ptr
  txid : String
  streamId : Nat
  allocId : Nat
deriving DecidableEq, Repr, Inhabited

/-- The mutable registry, struct AdminLog in the source: the live prefix of
the subscriptions array (indices 0 to subscriptionCount - 1) and the 32 slot
interned file name ring (NULL slots are none). -/
structure AdminLog where
  subscriptions : List Subscription
  fileNames : List (Option Ptr)
deriving DecidableEq, Repr, Inhabited

/-- The freshly created registry: no subscriptions, all ring slots NULL. -/
def initState : AdminLog := ⟨[], List.replicate FILENAME_COUNT none⟩

/-- Whether some slot of the ring holds a pointer with the given address
(the pointer comparison used in the source). -/
def tableHasPtr (t : List (Option Ptr)) (p : Ptr) : Bool :=
  t.any fun s => match s with
    | some q => q.id == p.id
    | none => false

/-- The interning loop of isMatch (source lines 82 to 91): scan slots from
index i while i < FILENAME_COUNT; stop without writing at a slot whose
pointer equals the file, or write the file into the first NULL slot and
clear the slot after it modulo FILENAME_COUNT. The fuel argument keeps
fuel + i = FILENAME_COUNT so the recursion mirrors the bounded for loop. -/
def internLoop (p : Ptr) : Nat → Nat → List (Option Ptr) → List (Option Ptr)
  | 0, _, t => t
  | fuel + 1, i, t =>
    match t.getD i none with
    | some q => if q.id == p.id then t else internLoop p fuel (i + 1) t
    | none => (t.set i (some p)).set ((i + 1) % FILENAME_COUNT) none

/-- One insertion attempt into the interned file name ring. -/
def internStep (t : List (Option Ptr)) (p : Ptr) : List (Option Ptr) :=
  internLoop p FILENAME_COUNT 0 t

/-- The pure level and line checks at the end of isMatch (source lines 95
to 101). -/
def levelLineOk (sub : Subscription) (logLevel : Log_Level) (line : Nat) : Bool :=
  if logLevel.toNat < sub.level.toNat then false
  else if sub.lineNum ≠ 0 ∧ line ≠ sub.lineNum then false
  else true

/-- isMatch (source lines 64 to 102). Returns the verdict together with the
possibly promoted subscription and the possibly extended ring, since the
source mutates both through pointers. On a content match of a non internal
file filter the subscription is promoted to the event file pointer and that
pointer is offered to the ring. -/
def isMatch (sub : Subscription) (fns : List (Option Ptr)) (logLevel : Log_Level)
    (file : Ptr) (line : Nat) : Bool × Subscription × List (Option Ptr) :=
  match sub.file with
  | none => (levelLineOk sub logLevel line, sub, fns)
  | some f =>
    if sub.internalName then
      if file.id ≠ f.id then (false, sub, fns)
      else (levelLineOk sub logLevel line, sub, fns)
    else if file.content ≠ f.content then (false, sub, fns)
    else
      let sub' : Subscription := { sub with file := some file, internalName := true }
      (levelLineOk sub' logLevel line, sub', internStep fns file)

/-- The structured push message built by makeLogMessage (source lines 104 to
126). The streamId field is written from the uint32 streamNum parameter. -/
structure LogMsg where
  streamId : Nat
  time : Nat
  level : String
  file : String
  line : Nat
  message : String
deriving DecidableEq, Repr, Inhabited

/-- makeLogMessage: builds the push message. The format expansion
String_vprintf is modelled as the format string itself (its arguments do not
influence any claim). The wall clock is passed in as now. -/
def makeLogMessage (logLevel : Log_Level) (file : Ptr) (line : Nat)
    (format : String) (streamNum : Nat) (now : Nat) : LogMsg :=
  { streamId := streamNum % 2 ^ 32
    time := now
    level := nameForLevel logLevel
    file := file.content
    line := line
    message := format }

/-- One Admin_sendMessage of a push message inside doLog: the message and the
transaction id it is addressed to, together with the streamId of the
subscription on whose behalf it was sent (recording which subscription the
delivery was for). -/
structure Delivery where
  destTxid : String
  subStreamId : Nat
  msg : LogMsg
deriving DecidableEq, Repr, Inhabited

/-- Result of one pass of the doLog loop over the subscription array. -/
structure LogPass where
  subs : List Subscription
  fileNames : List (Option Ptr)
  msg : Option LogMsg
  dels : List Delivery
deriving Repr

/-- The loop body of doLog (source lines 139 to 150): test each subscription
in order, lazily build the message at the first match and reuse it for every
later match of the same call. The source call to makeLogMessage omits the
streamNum argument (the surrounding code evidently intends the streamId of
the subscription that first matched, which is what later revisions of the
file pass), so the message is built from the streamId of the first matching
subscription, truncated to 32 bits by the uint32 parameter. -/
def doLogGo (logLevel : Log_Level) (file : Ptr) (line : Nat) (format : String)
    (now : Nat) : List Subscription → List (Option Ptr) → Option LogMsg → LogPass
  | [], fns, msg => ⟨[], fns, msg, []⟩
  | sub :: rest, fns, msg =>
    let r := isMatch sub fns logLevel file line
    if r.1 then
      let m := match msg with
        | some m0 => m0
        | none => makeLogMessage logLevel file line format r.2.1.streamId now
      let tail := doLogGo logLevel file line format now rest r.2.2 (some m)
      ⟨r.2.1 :: tail.subs, tail.fileNames, tail.msg,
        ⟨r.2.1.txid, r.2.1.streamId, m⟩ :: tail.dels⟩
    else
      let tail := doLogGo logLevel file line format now rest r.2.2 msg
      ⟨r.2.1 :: tail.subs, tail.fileNames, tail.msg, tail.dels⟩

/-- doLog (source lines 128 to 151): the logging entry point. Returns the
registry after the matching pass together with the list of deliveries
handed to the transport. -/
def doLog (log : AdminLog) (logLevel : Log_Level) (file : Ptr) (line : Nat)
    (format : String) (now : Nat) : AdminLog × List Delivery :=
  let r := doLogGo logLevel file line format now log.subscriptions log.fileNames none
  (⟨r.subs, r.fileNames⟩, r.dels)

/-- One reply sent on the admin transport: destination transaction id, the
error field (literally "none" on success) and the optional streamId field of
a successful subscribe reply. -/
structure Reply where
  dest : String
  error : String
  streamId : Option String
deriving DecidableEq, Repr, Inhabited

/-- Modelled from the spec: value of one hex digit character, lowercase hex
as produced by Hex_encode. -/
def hexVal (c : Char) : Option Nat :=
  if ('0' ≤ c ∧ c ≤ '9') then some (c.toNat - '0'.toNat)
  else if ('a' ≤ c ∧ c ≤ 'f') then some (c.toNat - 'a'.toNat + 10)
  else none

/-- Modelled from the spec: decode a hex character list two characters per
byte, failing on a non hex character or an odd length. -/
def hexPairsToBytes : List Char → Option (List Nat)
  | [] => some []
  | hi :: lo :: rest =>
    match hexVal hi, hexVal lo, hexPairsToBytes rest with
    | some h, some l, some bs => some ((h * 16 + l) :: bs)
    | _, _, _ => none
  | _ :: [] => none

/-- Value of a little endian byte list (the source decodes the hex string
into the memory of a uint64, and the model fixes the little endian layout). -/
def leVal (bs : List Nat) : Nat := bs.foldr (fun b acc => b + 256 * acc) 0

/-- Modelled from the spec: Hex_decode of the streamId argument, succeeding
exactly on a well formed hex string of 16 characters (8 bytes). -/
def hexDecode8 (s : String) : Option Nat :=
  if s.length = 16 then (hexPairsToBytes s.data).map leVal else none

/-- Lowercase hex character of a value below 16. -/
def hexChar (v : Nat) : Char :=
  if v < 10 then Char.ofNat ('0'.toNat + v) else Char.ofNat ('a'.toNat + v - 10)

/-- Modelled from the spec: Hex_encode of the 8 bytes of the streamId in
little endian memory order, as the subscribe reply renders it. -/
def hexEncode8 (n : Nat) : String :=
  String.mk (((List.range 8).map fun k =>
    [hexChar (n / 256 ^ k % 256 / 16), hexChar (n / 256 ^ k % 256 % 16)]).flatten)

/-- The error text of the invalid level reply of subscribe, with every level
name of the default build configuration. -/
def invalidLevelMsg : String :=
  "The provided log level is invalid, please specify one of [KEYS, DEBUG, INFO, WARN, ERROR, CRITICAL]"

/-- The level a subscribe request asks for: the named level, or DEBUG when
the level argument is absent. -/
def requestedLevel (levelName : Option String) : Log_Level :=
  match levelName with
  | some s => levelForName s
  | none => Log_Level.DEBUG

/-- The line validity test of subscribe: a present line argument below 1 is
rejected. -/
def lineArgBad (lineArg : Option Int) : Bool :=
  match lineArg with
  | some v => decide (v < 1)
  | none => false

/-- The file filter resolution of the subscribe success path (source lines
188 to 201): scan the whole ring for a non NULL content equal entry, reuse
the interned pointer when found (internal name), otherwise copy the argument
into the subscription allocation at the fresh address ptrId. -/
def subscribeFile (fns : List (Option Ptr)) (fileArg : Option String) (ptrId : Nat) :
    Option Ptr × Bool :=
  match fileArg with
  | none => (none, false)
  | some fstr =>
    match fns.findSome? (fun slot =>
        match slot with
        | some q => if q.content = fstr then some q else none
        | none => none) with
    | some q => (some q, true)
    | none => (some ⟨ptrId, fstr⟩, false)

/-- The subscription record written by the subscribe success path. -/
def newSubscription (level : Log_Level) (fns : List (Option Ptr))
    (lineArg : Option Int) (fileArg : Option String) (txid : String)
    (allocId ptrId sid : Nat) : Subscription :=
  { level := level
    internalName := (subscribeFile fns fileArg ptrId).2
    lineNum := match lineArg with | some v => v.toNat | none => 0
    file := (subscribeFile fns fileArg ptrId).1
    txid := txid
    streamId := sid
    allocId := allocId }

/-- subscribe (source lines 153 to 221). The nondeterministic collaborators
are passed in by the caller: allocId is the identity of the child allocator
that would be created, ptrId the address of the String_new copy of the file
argument, sid the random streamId drawn by randombytes. The third component
of the result lists the scoped allocations created by the call (empty on
failure, since the source only creates the child allocator on the success
path). The success path scans the whole ring for a NULL skipping content
compare against the file argument, reusing the interned pointer when found
(the source line spells the lookup fileNames[i] for log->fileNames[i]). -/
def subscribe (log : AdminLog) (levelName : Option String) (lineArg : Option Int)
    (fileArg : Option String) (txid : String) (allocId ptrId sid : Nat) :
    AdminLog × Reply × List Nat :=
  let level := requestedLevel levelName
  if level = Log_Level.INVALID then
    (log, ⟨txid, invalidLevelMsg, none⟩, [])
  else if lineArgBad lineArg = true then
    (log, ⟨txid, "Invalid line number, must be greater than or equal to 1", none⟩, [])
  else if MAX_SUBSCRIPTIONS ≤ log.subscriptions.length then
    (log, ⟨txid, "Max subscription count reached.", none⟩, [])
  else
    (⟨log.subscriptions
        ++ [newSubscription level log.fileNames lineArg fileArg txid allocId ptrId sid],
      log.fileNames⟩,
      ⟨txid, "none", some (hexEncode8 sid)⟩, [allocId])

/-- unsubscribe (source lines 223 to 252). The third component of the result
lists the scoped allocations released by the call (one free of the
allocator of the removed subscription on the found path, none otherwise).
Removal copies the last live entry over the removed slot and shrinks the
live count by one, exactly as the source does. -/
def unsubscribe (log : AdminLog) (streamIdHex : String) (txid : String) :
    AdminLog × Reply × List Nat :=
  match hexDecode8 streamIdHex with
  | none => (log, ⟨txid, "Invalid streamId.", none⟩, [])
  | some sid =>
    match log.subscriptions.findIdx? (fun sub => sub.streamId == sid) with
    | none => (log, ⟨txid, "No such subscription.", none⟩, [])
    | some i =>
      let n := log.subscriptions.length - 1
      let subs' := (log.subscriptions.set i (log.subscriptions.getD n default)).take n
      (⟨subs', log.fileNames⟩, ⟨txid, "none", none⟩,
        [(log.subscriptions.getD i default).allocId])

/-- One external stimulus of the registry: an admin subscribe call, an admin
unsubscribe call or a log statement anywhere in the process. -/
inductive Op where
  | sub (levelName : Option String) (lineArg : Option Int) (fileArg : Option String)
      (txid : String) (allocId ptrId sid : Nat)
  | unsub (streamIdHex : String) (txid : String)
  | log (lvl : Log_Level) (file : Ptr) (line : Nat) (fmt : String) (now : Nat)
deriving DecidableEq, Repr

/-- The state transition of one stimulus. -/
def step (s : AdminLog) : Op → AdminLog
  | .sub a b c d e f g => (subscribe s a b c d e f g).1
  | .unsub h t => (unsubscribe s h t).1
  | .log lvl p line fmt now => (doLog s lvl p line fmt now).1

/-- Run a stimulus sequence from a given state. -/
def runFrom (s : AdminLog) (ops : List Op) : AdminLog := ops.foldl step s

/-- Run a stimulus sequence from the freshly created registry; the reachable
states of the program are exactly the results of run. -/
def run (ops : List Op) : AdminLog := runFrom initState ops

/-- The file pointer of a log stimulus, if any. -/
def opEventPtr : Op → Option Ptr
  | .log _ p _ _ _ => some p
  | _ => none

/-- The file pointers of all log stimuli of a trace. -/
def eventPtrs (ops : List Op) : List Ptr := ops.filterMap opEventPtr

/-- Address consistency of a pointer collection: two pointers of the
collection have the same address exactly when they have the same contents.
In the running C program the file arguments of log statements satisfy this:
each source file passes the address of its one FILE literal. -/
def PtrsConsistent (ps : List Ptr) : Prop :=
  ∀ p ∈ ps, ∀ q ∈ ps, (p.id = q.id ↔ p.content = q.content)

instance : DecidablePred PtrsConsistent := fun ps =>
  inferInstanceAs (Decidable (∀ p ∈ ps, ∀ q ∈ ps, (p.id = q.id ↔ p.content = q.content)))

/-- Thirty two pairwise distinct file names used by the concrete traces. -/
def fnames : List String :=
  ["f0", "f1", "f2", "f3", "f4", "f5", "f6", "f7",
   "f8", "f9", "f10", "f11", "f12", "f13", "f14", "f15",
   "f16", "f17", "f18", "f19", "f20", "f21", "f22", "f23",
   "f24", "f25", "f26", "f27", "f28", "f29", "f30", "f31"]

/-- The j-th concrete file name. -/
def fname (j : Nat) : String := fnames.getD j "x"

/-- A concrete trace filling the interned ring: for each j below 32,
subscribe with file filter fname j, emit one log event from that file (which
promotes the subscription and inserts the event pointer into the ring) and,
except for j = 0, unsubscribe again. The 32nd insertion lands in slot 31 and
clears slot 0, evicting the pointer of f0 while the surviving subscription
for f0 still holds it. -/
def c7trace : List Op :=
  (List.range 32).flatMap fun j =>
    [Op.sub none none (some (fname j)) "t" (100 + j) (200 + j) (j + 1),
     Op.log .DEBUG ⟨1000 + j, fname j⟩ 0 "m" 0] ++
    (if j = 0 then [] else [Op.unsub (hexEncode8 (j + 1)) "t"])

/-- A concrete trace producing a duplicate ring entry: fill slots 0 to 30
with the pointers of f0 to f30, then create two subscriptions whose filter
text g is not interned yet, then emit one log event from g. The first
subscription promotes and inserts the g pointer at slot 31, clearing slot 0;
the second promotes in the same call and, although the g pointer now sits in
slot 31, the scan hits the cleared slot 0 first and inserts it again. -/
def c9trace : List Op :=
  ((List.range 31).flatMap fun j =>
    [Op.sub none none (some (fname j)) "t" (100 + j) (200 + j) (j + 1),
     Op.log .DEBUG ⟨1000 + j, fname j⟩ 0 "m" 0,
     Op.unsub (hexEncode8 (j + 1)) "t"]) ++
  [Op.sub none none (some "g") "t" 900 901 100,
   Op.sub none none (some "g") "t" 910 911 101,
   Op.log .DEBUG ⟨2000, "g"⟩ 0 "m" 0]

/-- The event pointer of the file g of the duplicate insertion trace. -/
def gptr : Ptr := ⟨2000, "g"⟩

/-- The ring state faced by the second promotion of the duplicate insertion
trace: slot 0 just cleared, slots 1 to 30 holding the pointers of f1 to f30,
slot 31 holding the pointer of g. -/
def c9table : List (Option Ptr) :=
  [none] ++ (List.range 30).map (fun k => some ⟨1001 + k, fname (k + 1)⟩) ++ [some gptr]

/-- A concrete two subscription state for the delivery claims: both
subscriptions filter nothing (no file, level DEBUG, no line), with stream
ids 1 and 2. -/
def c2ops : List Op :=
  [Op.sub none none none "t1" 100 200 1, Op.sub none none none "t2" 101 201 2]

/-! ## Verdict of the match predicate (claim C1) -/

/-- The pure level and line checks hold exactly when the event level is at
least the subscription level and the line filter is unset or hit exactly. -/
theorem levelLineOk_iff (sub : Subscription) (lvl : Log_Level) (line : Nat) :
    levelLineOk sub lvl line = true ↔
      (sub.level.toNat ≤ lvl.toNat ∧ (sub.lineNum = 0 ∨ line = sub.lineNum)) := by
  unfold levelLineOk
  split_ifs with h1 h2 <;> simp_all <;> omega

/-- Helper form of the C1 equivalence, shared by later developments. -/
theorem isMatch_fst_iff (sub : Subscription) (fns : List (Option Ptr))
    (lvl : Log_Level) (file : Ptr) (line : Nat) :
    (isMatch sub fns lvl file line).1 = true ↔
      ((sub.file = none ∨
        (∃ f, sub.file = some f ∧
          ((sub.internalName = true ∧ file.id = f.id) ∨
           (sub.internalName = false ∧ file.content = f.content))))
       ∧ sub.level.toNat ≤ lvl.toNat
       ∧ (sub.lineNum = 0 ∨ line = sub.lineNum)) := by
  unfold isMatch
  cases hf : sub.file with
  | none => simp [levelLineOk_iff]
  | some f =>
    by_cases hint : sub.internalName <;>
      by_cases hid : file.id = f.id <;>
        by_cases hct : file.content = f.content <;>
          simp [hint, hid, hct, levelLineOk_iff, levelLineOk]

/-- C1: for every subscription s and log event e, isMatch returns true if
and only if the file filter of s is unset, or (when internalName is true)
the event file pointer is identical to the filter pointer, or (when
internalName is false) the event file is content equal to the filter; and
the event level is at least the subscription level; and the line filter of s
is 0 or hit exactly by the event line. -/
theorem isMatch_verdict_C1 (sub : Subscription) (fns : List (Option Ptr))
    (lvl : Log_Level) (file : Ptr) (line : Nat) :
    (isMatch sub fns lvl file line).1 = true ↔
      ((sub.file = none ∨
        (∃ f, sub.file = some f ∧
          ((sub.internalName = true ∧ file.id = f.id) ∨
           (sub.internalName = false ∧ file.content = f.content))))
       ∧ sub.level.toNat ≤ lvl.toNat
       ∧ (sub.lineNum = 0 ∨ line = sub.lineNum)) :=
  isMatch_fst_iff sub fns lvl file line

/-! ## Message reuse across the fan out of one log call (claim C2) -/

/-- Once the lazy message of a doLog pass is built, every later delivery of
the same pass carries exactly that message. -/
theorem doLogGo_dels_of_some (lvl : Log_Level) (p : Ptr) (line : Nat) (fmt : String)
    (now : Nat) : ∀ (subs : List Subscription) (fns : List (Option Ptr)) (m0 : LogMsg),
    ∀ d ∈ (doLogGo lvl p line fmt now subs fns (some m0)).dels, d.msg = m0 := by
  intro subs
  induction subs with
  | nil => intro fns m0 d hd; simp [doLogGo] at hd
  | cons sub rest ih =>
    intro fns m0 d hd
    unfold doLogGo at hd
    by_cases hm : (isMatch sub fns lvl p line).1 <;> simp [hm] at hd
    · rcases hd with hd | hd
      · rw [hd]
      · exact ih _ _ d hd
    · exact ih _ _ d hd

/-- Every doLog pass has a single message value shared by all deliveries. -/
theorem doLogGo_dels_shared (lvl : Log_Level) (p : Ptr) (line : Nat) (fmt : String)
    (now : Nat) : ∀ (subs : List Subscription) (fns : List (Option Ptr)),
    ∃ m, ∀ d ∈ (doLogGo lvl p line fmt now subs fns none).dels, d.msg = m := by
  intro subs
  induction subs with
  | nil => exact fun fns => ⟨default, by simp [doLogGo]⟩
  | cons sub rest ih =>
    intro fns
    unfold doLogGo
    by_cases hm : (isMatch sub fns lvl p line).1 <;> simp only [hm, if_true, if_false]
    · refine ⟨makeLogMessage lvl p line fmt (isMatch sub fns lvl p line).2.1.streamId now, ?_⟩
      intro d hd
      simp only [List.mem_cons] at hd
      rcases hd with hd | hd
      · rw [hd]
      · exact doLogGo_dels_of_some lvl p line fmt now rest _ _ d hd
    · exact ih _

/-- C2 counterexample: in a reachable state with two subscriptions of stream
ids 1 and 2, both matching, the single log call delivers to both but the
streamId field of the second delivered message is 1, the id of the first
matching subscription, not the id 2 of the subscription it is delivered to.
The claim that each delivered message carries the streamId of the specific
subscription it is delivered to is therefore false. -/
theorem doLog_streamId_counterexample_C2 :
    ((doLog (run c2ops) .DEBUG ⟨0, "x"⟩ 7 "m" 1000).2.map fun d => d.msg.streamId) = [1, 1]
    ∧ ((doLog (run c2ops) .DEBUG ⟨0, "x"⟩ 7 "m" 1000).2.map fun d => d.subStreamId) = [1, 2]
    ∧ ¬ (∀ d ∈ (doLog (run c2ops) .DEBUG ⟨0, "x"⟩ 7 "m" 1000).2,
          d.msg.streamId = d.subStreamId) := by
  refine ⟨by decide, by decide, by decide⟩

/-- C2 amended: the encoded push message is built at most once per log call,
lazily at the first matching subscription, and is then reused unchanged for
every other matching subscription of the same call; in particular every
delivery of one call carries the same streamId field (the one fixed when the
message was built), so the streamId of a delivered message does not identify
the subscription it is delivered to, and deliveries of one call differ only
in their destination transaction id. -/
theorem doLog_message_shared_C2 (log : AdminLog) (lvl : Log_Level) (p : Ptr)
    (line : Nat) (fmt : String) (now : Nat) :
    ∀ d ∈ (doLog log lvl p line fmt now).2, ∀ d₂ ∈ (doLog log lvl p line fmt now).2,
      d.msg = d₂.msg := by
  intro d hd d₂ hd₂
  obtain ⟨m, hm⟩ := doLogGo_dels_shared lvl p line fmt now log.subscriptions log.fileNames
  have h1 : d.msg = m := hm d hd
  have h2 : d₂.msg = m := hm d₂ hd₂
  rw [h1, h2]

/-- Witness for the amended C2 theorem at the concrete two subscription
state: the two delivered messages of one log call are equal. -/
theorem doLog_message_shared_C2_witness :
    ((doLog (run c2ops) .DEBUG ⟨0, "x"⟩ 7 "m" 1000).2.getD 0 default).msg
      = ((doLog (run c2ops) .DEBUG ⟨0, "x"⟩ 7 "m" 1000).2.getD 1 default).msg :=
  doLog_message_shared_C2 (run c2ops) .DEBUG ⟨0, "x"⟩ 7 "m" 1000
    _ (by decide) _ (by decide)

/-! ## Failed subscribe leaves the store untouched (claim C4) -/

/-- A full store: 64 live subscriptions. -/
def c4state : AdminLog :=
  ⟨List.replicate MAX_SUBSCRIPTIONS default, List.replicate FILENAME_COUNT none⟩

/-- The line validity test of subscribe in terms of the argument value. -/
theorem lineBad_iff (lineArg : Option Int) :
    lineArgBad lineArg = true ↔ ∃ v, lineArg = some v ∧ v < 1 := by
  cases lineArg <;> simp [lineArgBad]

/-- C4: a subscribe call that fails (unrecognized level name, line below 1,
or store already full) returns the store unmodified, creates no scoped
allocation and replies with an error; in particular with the store at the
capacity of 64 and otherwise valid arguments the reply is the capacity
error and the store still holds its 64 subscriptions. -/
theorem subscribe_failure_frame_C4 (log : AdminLog) (levelName : Option String)
    (lineArg : Option Int) (fileArg : Option String) (txid : String)
    (allocId ptrId sid : Nat) :
    ((requestedLevel levelName = Log_Level.INVALID
        ∨ (∃ v, lineArg = some v ∧ v < 1)
        ∨ MAX_SUBSCRIPTIONS ≤ log.subscriptions.length) →
      ((subscribe log levelName lineArg fileArg txid allocId ptrId sid).1 = log
        ∧ (subscribe log levelName lineArg fileArg txid allocId ptrId sid).2.2 = []
        ∧ (subscribe log levelName lineArg fileArg txid allocId ptrId sid).2.1.error ≠ "none"))
    ∧ (requestedLevel levelName ≠ Log_Level.INVALID →
        (∀ v, lineArg = some v → 1 ≤ v) →
        MAX_SUBSCRIPTIONS ≤ log.subscriptions.length →
        ((subscribe log levelName lineArg fileArg txid allocId ptrId sid).2.1.error
            = "Max subscription count reached."
          ∧ (subscribe log levelName lineArg fileArg txid allocId ptrId sid).1 = log
          ∧ (subscribe log levelName lineArg fileArg txid allocId ptrId sid).1.subscriptions.length
              = log.subscriptions.length)) := by
  by_cases h1 : requestedLevel levelName = Log_Level.INVALID
  · have hr : subscribe log levelName lineArg fileArg txid allocId ptrId sid
        = (log, ⟨txid, invalidLevelMsg, none⟩, []) := by
      unfold subscribe
      simp [h1]
    constructor
    · intro _
      rw [hr]
      exact ⟨rfl, rfl, show invalidLevelMsg ≠ "none" by decide⟩
    · intro h1' _ _
      exact absurd h1 h1'
  · by_cases h2 : ∃ v, lineArg = some v ∧ v < 1
    · have hb : lineArgBad lineArg = true := (lineBad_iff lineArg).mpr h2
      have hr : subscribe log levelName lineArg fileArg txid allocId ptrId sid
          = (log, ⟨txid, "Invalid line number, must be greater than or equal to 1", none⟩, []) := by
        unfold subscribe
        simp [h1, hb]
      constructor
      · intro _
        rw [hr]
        exact ⟨rfl, rfl,
          show ("Invalid line number, must be greater than or equal to 1" : String) ≠ "none"
            by decide⟩
      · intro _ hl _
        obtain ⟨v, hv, hv1⟩ := h2
        have := hl v hv
        omega
    · have hb : lineArgBad lineArg = false := by
        rw [← Bool.not_eq_true, lineBad_iff]
        exact h2
      by_cases h3 : MAX_SUBSCRIPTIONS ≤ log.subscriptions.length
      · have hr : subscribe log levelName lineArg fileArg txid allocId ptrId sid
            = (log, ⟨txid, "Max subscription count reached.", none⟩, []) := by
          unfold subscribe
          simp [h1, hb, h3]
        constructor
        · intro _
          rw [hr]
          exact ⟨rfl, rfl,
            show ("Max subscription count reached." : String) ≠ "none" by decide⟩
        · intro _ _ _
          rw [hr]
          exact ⟨rfl, rfl, rfl⟩
      · constructor
        · intro h
          rcases h with h | h | h
          · exact absurd h h1
          · exact absurd h h2
          · exact absurd h h3
        · intro _ _ h3'
          exact absurd h3' h3

/-- Witness for C4 at a concrete full store: the 65th subscribe fails with
the capacity error and the store still holds its 64 subscriptions. -/
theorem subscribe_failure_frame_C4_witness :
    (subscribe c4state none none none "t" 0 0 0).2.1.error = "Max subscription count reached."
      ∧ (subscribe c4state none none none "t" 0 0 0).1 = c4state := by
  have h := (subscribe_failure_frame_C4 c4state none none none "t" 0 0 0).2
    (by decide) (fun v hv => by cases hv) (by decide)
  exact ⟨h.1, h.2.1⟩

/-! ## unsubscribe error paths (claim C5) -/

/-- C5: an unsubscribe call whose streamId argument is not a well formed hex
string of exactly 16 characters decoding to 8 bytes replies with the invalid
streamId error and mutates nothing; a well formed argument matching no live
subscription replies with the not found error and mutates nothing; in both
cases the full result (store, single reply, empty release list) is pinned. -/
theorem unsubscribe_errors_C5 (log : AdminLog) (hex : String) (txid : String) :
    (hexDecode8 hex = none →
      unsubscribe log hex txid = (log, ⟨txid, "Invalid streamId.", none⟩, []))
    ∧ (∀ sid, hexDecode8 hex = some sid →
        (∀ sub ∈ log.subscriptions, sub.streamId ≠ sid) →
        unsubscribe log hex txid = (log, ⟨txid, "No such subscription.", none⟩, [])) := by
  constructor
  · intro h
    unfold unsubscribe
    rw [h]
  · intro sid h hnone
    have hfind : log.subscriptions.findIdx? (fun sub => sub.streamId == sid) = none := by
      rw [List.findIdx?_eq_none_iff]
      intro sub hs
      simpa using hnone sub hs
    unfold unsubscribe
    simp only [h, hfind]

/-- Witness for C5: a malformed hex argument and a well formed but unknown
one, both against the empty store. -/
theorem unsubscribe_errors_C5_witness :
    unsubscribe initState "zz" "t" = (initState, ⟨"t", "Invalid streamId.", none⟩, [])
    ∧ unsubscribe initState "0000000000000000" "t"
        = (initState, ⟨"t", "No such subscription.", none⟩, []) := by
  constructor
  · exact (unsubscribe_errors_C5 initState "zz" "t").1 (by decide)
  · exact (unsubscribe_errors_C5 initState "0000000000000000" "t").2 0 (by decide)
      (by intro sub hs; cases hs)

/-! ## Successful unsubscribe removes exactly the matched subscription (claim C3) -/

/-- Swap with last removal permutes: putting the removed element back on the
front of the shrunken array is a permutation of the original live prefix. -/
theorem swapRemove_perm (l : List Cjdns.Subscription) (i : Nat) (hi : i < l.length) :
    List.Perm (l.get ⟨i, hi⟩ :: (l.set i (l.getD (l.length - 1) default)).take (l.length - 1)) l := by
  have hn : 1 ≤ l.length := by omega
  have hlastb : l.length - 1 < l.length := by omega
  have hlast : l.getD (l.length - 1) default = l.get ⟨l.length - 1, hlastb⟩ :=
    List.getD_eq_getElem l default hlastb
  rw [List.set_take, hlast]
  set last := l.get ⟨l.length - 1, hlastb⟩ with hlastdef
  set T := l.take (l.length - 1) with hTdef
  have hT : T ++ [last] = l := by
    have h1 : last :: l.drop (l.length - 1 + 1) = l.drop (l.length - 1) := by
      rw [hlastdef]
      simp only [List.get_eq_getElem]
      exact List.getElem_cons_drop l (l.length - 1) hlastb
    have h2 : l.drop (l.length - 1 + 1) = [] := List.drop_of_length_le (by omega)
    rw [h2] at h1
    rw [hTdef, h1]
    exact List.take_append_drop _ l
  by_cases hcase : i = l.length - 1
  · subst hcase
    have hlen : T.length ≤ l.length - 1 := by
      rw [hTdef, List.length_take]
      omega
    rw [List.set_eq_of_length_le hlen]
    have hx : l.get ⟨l.length - 1, hi⟩ = last := rfl
    rw [hx]
    have hp := (List.perm_append_singleton last T).symm
    rw [hT] at hp
    exact hp
  · have hiT : i < T.length := by
      rw [hTdef, List.length_take]
      omega
    have hx : l.get ⟨i, hi⟩ = T.get ⟨i, hiT⟩ := by
      simp only [hTdef, List.get_eq_getElem, List.getElem_take]
    set x := T.get ⟨i, hiT⟩ with hxdef
    set A := T.take i with hAdef
    set B := T.drop (i + 1) with hBdef
    have hsetdec : T.set i last = A ++ last :: B := List.set_eq_take_cons_drop last hiT
    have hTdec : A ++ x :: B = T := by
      rw [hxdef, hAdef, hBdef]
      simp only [List.get_eq_getElem]
      rw [List.getElem_cons_drop T i hiT]
      exact List.take_append_drop i T
    rw [hx, hsetdec]
    have p2 : List.Perm (x :: (A ++ last :: B)) (x :: last :: (A ++ B)) :=
      (List.perm_middle).cons x
    have p3 : List.Perm (x :: last :: (A ++ B)) (last :: x :: (A ++ B)) :=
      List.Perm.swap last x (A ++ B)
    have p4 : List.Perm (last :: x :: (A ++ B)) (last :: T) := by
      refine List.Perm.cons last ?_
      rw [← hTdec]
      exact List.perm_middle.symm
    have p5 : List.Perm (last :: T) l := by
      have hp := (List.perm_append_singleton last T).symm
      rw [hT] at hp
      exact hp
    exact ((p2.trans p3).trans p4).trans p5

/-- C3: an unsubscribe call whose streamId decodes and matches a live
subscription (at the first matching index i) releases exactly that
subscription allocator once, replies with success, keeps the ring untouched,
shrinks the live count by one, overwrites slot i with the previous last
entry when i was not the last, and the remaining live subscriptions are a
permutation of the previous ones minus the removed one. -/
theorem unsubscribe_found_C3 (log : AdminLog) (hex : String) (txid : String) (sid : Nat)
    (hdec : hexDecode8 hex = some sid)
    (hmem : ∃ sub ∈ log.subscriptions, sub.streamId = sid) :
    ∃ (i : Nat) (hi : i < log.subscriptions.length),
      (log.subscriptions.get ⟨i, hi⟩).streamId = sid
      ∧ (unsubscribe log hex txid).2.2 = [(log.subscriptions.get ⟨i, hi⟩).allocId]
      ∧ (unsubscribe log hex txid).2.1 = ⟨txid, "none", none⟩
      ∧ (unsubscribe log hex txid).1.fileNames = log.fileNames
      ∧ (unsubscribe log hex txid).1.subscriptions.length = log.subscriptions.length - 1
      ∧ (i + 1 < log.subscriptions.length →
          (unsubscribe log hex txid).1.subscriptions.getD i default
            = log.subscriptions.getD (log.subscriptions.length - 1) default)
      ∧ List.Perm
          (log.subscriptions.get ⟨i, hi⟩ :: (unsubscribe log hex txid).1.subscriptions)
          log.subscriptions := by
  have hsome : (log.subscriptions.findIdx? (fun sub => sub.streamId == sid)).isSome := by
    rw [List.findIdx?_isSome, List.any_eq_true]
    obtain ⟨sub, hs, he⟩ := hmem
    refine ⟨sub, hs, ?_⟩
    simpa using he
  obtain ⟨i, hfi⟩ := Option.isSome_iff_exists.mp hsome
  obtain ⟨hi, hpi, -⟩ := List.findIdx?_eq_some_iff_getElem.mp hfi
  have hres : unsubscribe log hex txid
      = (AdminLog.mk
          ((log.subscriptions.set i
              (log.subscriptions.getD (log.subscriptions.length - 1) default)).take
            (log.subscriptions.length - 1))
          log.fileNames,
         Reply.mk txid "none" none,
         [(log.subscriptions.getD i default).allocId]) := by
    unfold unsubscribe
    simp only [hdec, hfi]
  refine ⟨i, hi, ?_, ?_, ?_, ?_, ?_, ?_, ?_⟩
  · simpa using hpi
  · rw [hres]
    rw [List.getD_eq_getElem log.subscriptions default hi]
    simp [List.get_eq_getElem]
  · rw [hres]
  · rw [hres]
  · rw [hres]
    simp only [List.length_take, List.length_set]
    omega
  · intro hlt
    rw [hres]
    simp only []
    rw [List.set_take]
    have hb : i < ((log.subscriptions.take (log.subscriptions.length - 1)).set i
        (log.subscriptions.getD (log.subscriptions.length - 1) default)).length := by
      simp only [List.length_set, List.length_take]
      omega
    rw [List.getD_eq_getElem _ _ hb, List.getElem_set_self]
  · rw [hres]
    exact swapRemove_perm log.subscriptions i hi

/-- Witness for C3 at a one subscription store: removing the only
subscription succeeds and empties the store. -/
theorem unsubscribe_found_C3_witness :
    (unsubscribe (run [Op.sub none none none "t" 7 8 5]) (hexEncode8 5) "t").2.1
        = ⟨"t", "none", none⟩
    ∧ (unsubscribe (run [Op.sub none none none "t" 7 8 5]) (hexEncode8 5) "t").1.subscriptions.length
        = 0 := by
  obtain ⟨i, hi, -, -, hrep, -, hlen, -, -⟩ :=
    unsubscribe_found_C3 (run [Op.sub none none none "t" 7 8 5]) (hexEncode8 5) "t" 5
      (by decide) (by decide)
  refine ⟨hrep, ?_⟩
  rw [hlen]
  decide

/-! ## No deliveries for a removed subscription (claim C6) -/

/-- The promotion side effect of isMatch never changes the streamId. -/
theorem isMatch_streamId (sub : Subscription) (fns : List (Option Ptr)) (lvl : Log_Level)
    (p : Ptr) (line : Nat) : (isMatch sub fns lvl p line).2.1.streamId = sub.streamId := by
  unfold isMatch
  cases sub.file <;> dsimp only [] <;> split_ifs <;> rfl

/-- The promotion side effect of isMatch never changes the txid. -/
theorem isMatch_txid (sub : Subscription) (fns : List (Option Ptr)) (lvl : Log_Level)
    (p : Ptr) (line : Nat) : (isMatch sub fns lvl p line).2.1.txid = sub.txid := by
  unfold isMatch
  cases sub.file <;> dsimp only [] <;> split_ifs <;> rfl

/-- Every delivery of a doLog pass is on behalf of one of the iterated
subscriptions. -/
theorem doLogGo_dels_sub_ids (lvl : Log_Level) (p : Ptr) (line : Nat) (fmt : String)
    (now : Nat) : ∀ (subs : List Subscription) (fns : List (Option Ptr)) (msg : Option LogMsg),
    ∀ d ∈ (doLogGo lvl p line fmt now subs fns msg).dels,
      ∃ sub ∈ subs, d.subStreamId = sub.streamId := by
  intro subs
  induction subs with
  | nil => intro fns msg d hd; simp [doLogGo] at hd
  | cons sub rest ih =>
    intro fns msg d hd
    unfold doLogGo at hd
    by_cases hm : (isMatch sub fns lvl p line).1 <;> simp [hm] at hd
    · rcases hd with hd | hd
      · refine ⟨sub, List.mem_cons_self sub rest, ?_⟩
        rw [hd]
        simp [isMatch_streamId]
      · obtain ⟨s, hs, he⟩ := ih _ _ d hd
        exact ⟨s, List.mem_cons_of_mem sub hs, he⟩
    · obtain ⟨s, hs, he⟩ := ih _ _ d hd
      exact ⟨s, List.mem_cons_of_mem sub hs, he⟩

/-- A subscribe call that replies with success appends exactly one new
subscription (the record built by the success path, carrying the requested
streamId) and leaves the ring unchanged. -/
theorem subscribe_success_shape (s0 : AdminLog) (levelName : Option String)
    (lineArg : Option Int) (fileArg : Option String) (txid : String)
    (allocId ptrId sid : Nat)
    (hok : (subscribe s0 levelName lineArg fileArg txid allocId ptrId sid).2.1.error = "none") :
    (subscribe s0 levelName lineArg fileArg txid allocId ptrId sid).1.subscriptions
        = s0.subscriptions
          ++ [newSubscription (requestedLevel levelName) s0.fileNames lineArg fileArg txid
                allocId ptrId sid]
    ∧ (subscribe s0 levelName lineArg fileArg txid allocId ptrId sid).1.fileNames
        = s0.fileNames := by
  by_cases h1 : requestedLevel levelName = Log_Level.INVALID
  · have hr : subscribe s0 levelName lineArg fileArg txid allocId ptrId sid
        = (s0, ⟨txid, invalidLevelMsg, none⟩, []) := by
      unfold subscribe
      simp [h1]
    rw [hr] at hok
    exact absurd hok (show (invalidLevelMsg : String) ≠ "none" by decide)
  · by_cases hb : lineArgBad lineArg = true
    · have hr : subscribe s0 levelName lineArg fileArg txid allocId ptrId sid
          = (s0, ⟨txid, "Invalid line number, must be greater than or equal to 1", none⟩, []) := by
        unfold subscribe
        simp [h1, hb]
      rw [hr] at hok
      exact absurd hok
        (show ("Invalid line number, must be greater than or equal to 1" : String) ≠ "none"
          by decide)
    · by_cases h3 : MAX_SUBSCRIPTIONS ≤ s0.subscriptions.length
      · have hr : subscribe s0 levelName lineArg fileArg txid allocId ptrId sid
            = (s0, ⟨txid, "Max subscription count reached.", none⟩, []) := by
          unfold subscribe
          simp [h1, hb, h3]
        rw [hr] at hok
        exact absurd hok (show ("Max subscription count reached." : String) ≠ "none" by decide)
      · constructor
        all_goals
          unfold subscribe
          simp [h1, hb, h3]

/-- C6: subscribing (with a streamId fresh for the store), unsubscribing
that very streamId again and then emitting any log event produces zero
deliveries on behalf of that stream id, whatever the event and however the
filter would have matched. -/
theorem log_after_unsubscribe_C6 (s0 : AdminLog) (levelName : Option String)
    (lineArg : Option Int) (fileArg : Option String) (txid txid2 : String)
    (allocId ptrId sid : Nat) (hex : String)
    (hfresh : ∀ sub ∈ s0.subscriptions, sub.streamId ≠ sid)
    (hok : (subscribe s0 levelName lineArg fileArg txid allocId ptrId sid).2.1.error = "none")
    (hdec : hexDecode8 hex = some sid)
    (lvl : Log_Level) (p : Ptr) (line : Nat) (fmt : String) (now : Nat) :
    ∀ d ∈ (doLog
        (unsubscribe (subscribe s0 levelName lineArg fileArg txid allocId ptrId sid).1
          hex txid2).1 lvl p line fmt now).2,
      d.subStreamId ≠ sid := by
  obtain ⟨hsubs, hfns⟩ :=
    subscribe_success_shape s0 levelName lineArg fileArg txid allocId ptrId sid hok
  have hnone : s0.subscriptions.findIdx? (fun sub => sub.streamId == sid) = none := by
    rw [List.findIdx?_eq_none_iff]
    intro x hx
    simpa using hfresh x hx
  have hfind : (subscribe s0 levelName lineArg fileArg txid allocId ptrId sid).1.subscriptions.findIdx?
      (fun sub => sub.streamId == sid) = some s0.subscriptions.length := by
    rw [hsubs, List.findIdx?_append, hnone]
    simp [newSubscription]
  have hs2 : (unsubscribe (subscribe s0 levelName lineArg fileArg txid allocId ptrId sid).1
      hex txid2).1
      = AdminLog.mk s0.subscriptions
          (subscribe s0 levelName lineArg fileArg txid allocId ptrId sid).1.fileNames := by
    unfold unsubscribe
    simp only [hdec, hfind]
    have hsubs2 : (((subscribe s0 levelName lineArg fileArg txid allocId ptrId sid).1.subscriptions.set
          s0.subscriptions.length
          ((subscribe s0 levelName lineArg fileArg txid allocId ptrId sid).1.subscriptions.getD
            ((subscribe s0 levelName lineArg fileArg txid allocId ptrId sid).1.subscriptions.length - 1)
            default)).take
        ((subscribe s0 levelName lineArg fileArg txid allocId ptrId sid).1.subscriptions.length - 1))
        = s0.subscriptions := by
      rw [hsubs]
      rw [List.set_take]
      have hlen : (s0.subscriptions
          ++ [newSubscription (requestedLevel levelName) s0.fileNames lineArg fileArg txid
                allocId ptrId sid]).length - 1 = s0.subscriptions.length := by
        simp
      rw [hlen, List.take_left]
      exact List.set_eq_of_length_le (Nat.le_refl _)
    rw [hsubs2]
  intro d hd
  have hd2 : d ∈ (doLogGo lvl p line fmt now s0.subscriptions
      (subscribe s0 levelName lineArg fileArg txid allocId ptrId sid).1.fileNames none).dels := by
    rw [hs2] at hd
    exact hd
  obtain ⟨sub, hs, he⟩ := doLogGo_dels_sub_ids lvl p line fmt now s0.subscriptions _ none d hd2
  rw [he]
  exact hfresh sub hs

/-- Witness for C6: a concrete subscribe, unsubscribe of the same id and a
log event; the one delivery that remains (for an older subscription) is not
on behalf of the removed stream id 5. -/
theorem log_after_unsubscribe_C6_witness :
    ((doLog (unsubscribe (subscribe (run [Op.sub none none none "t0" 50 60 9]) none none none
        "t" 1 2 5).1 (hexEncode8 5) "t2").1 .DEBUG ⟨3, "y"⟩ 1 "m" 0).2.getD 0
        default).subStreamId ≠ 5 :=
  log_after_unsubscribe_C6 (run [Op.sub none none none "t0" 50 60 9]) none none none
    "t" "t2" 1 2 5 (hexEncode8 5) (by decide) (by decide) (by decide)
    .DEBUG ⟨3, "y"⟩ 1 "m" 0 _ (by decide)

/-! ## Behavior of one interning insertion (claims C9 and C7) -/

/-- The stop condition of the interning scan at slot j: the slot holds a
pointer with the address of the file, or the slot is empty. -/
def stopSlot (t : List (Option Ptr)) (p : Ptr) (j : Nat) : Prop :=
  (∃ q, t.getD j none = some q ∧ q.id = p.id) ∨ t.getD j none = none

instance (t : List (Option Ptr)) (p : Ptr) (j : Nat) : Decidable (stopSlot t p j) := by
  unfold stopSlot
  infer_instance

/-- If no slot in the remaining scan range stops the interning loop, the
ring is returned unchanged. -/
theorem internLoop_no_stop (p : Ptr) (t : List (Option Ptr)) :
    ∀ (fuel i : Nat), (∀ k, i ≤ k → k < i + fuel → ¬ stopSlot t p k) →
      internLoop p fuel i t = t := by
  intro fuel
  induction fuel with
  | zero => intro i _; rfl
  | succ f ih =>
    intro i h
    unfold internLoop
    cases hg : t.getD i none with
    | none => exact absurd (Or.inr hg) (h i (Nat.le_refl i) (by omega))
    | some q =>
      by_cases hq : q.id = p.id
      · exact absurd (Or.inl ⟨q, hg, hq⟩) (h i (Nat.le_refl i) (by omega))
      · have hq2 : (q.id == p.id) = false := by simpa using hq
        show (if (q.id == p.id) = true then t else internLoop p f (i + 1) t) = t
        rw [hq2]
        simp only [Bool.false_eq_true, if_false]
        exact ih (i + 1) (fun k hk1 hk2 => h k (by omega) (by omega))

/-- The interning loop stops at the first stopping slot of its range: at a
pointer equal slot nothing is written, at an empty slot the file is written
there and the next slot modulo the capacity is cleared. -/
theorem internLoop_stop (p : Ptr) (t : List (Option Ptr)) :
    ∀ (fuel i j : Nat), i ≤ j → j < i + fuel → stopSlot t p j →
      (∀ k, i ≤ k → k < j → ¬ stopSlot t p k) →
      ((∃ q, t.getD j none = some q ∧ q.id = p.id) → internLoop p fuel i t = t)
      ∧ (t.getD j none = none →
          internLoop p fuel i t = (t.set j (some p)).set ((j + 1) % FILENAME_COUNT) none) := by
  intro fuel
  induction fuel with
  | zero => intro i j h1 h2; omega
  | succ f ih =>
    intro i j h1 h2 hstop hmin
    by_cases hij : i = j
    · subst hij
      constructor
      · rintro ⟨q, hg, hq⟩
        unfold internLoop
        rw [hg]
        have hq2 : (q.id == p.id) = true := by simpa using hq
        show (if (q.id == p.id) = true then t else internLoop p f (i + 1) t) = t
        rw [hq2]
        simp
      · intro hg
        unfold internLoop
        rw [hg]
    · have hij2 : i < j := by omega
      have hni : ¬ stopSlot t p i := hmin i (Nat.le_refl i) hij2
      cases hg : t.getD i none with
      | none => exact absurd (Or.inr hg) hni
      | some q =>
        by_cases hq : q.id = p.id
        · exact absurd (Or.inl ⟨q, hg, hq⟩) hni
        · have hq2 : (q.id == p.id) = false := by simpa using hq
          have hstep : internLoop p (f + 1) i t = internLoop p f (i + 1) t := by
            show (match t.getD i none with
                | some q => if (q.id == p.id) = true then t else internLoop p f (i + 1) t
                | none => (t.set i (some p)).set ((i + 1) % FILENAME_COUNT) none)
              = internLoop p f (i + 1) t
            rw [hg]
            show (if (q.id == p.id) = true then t else internLoop p f (i + 1) t)
              = internLoop p f (i + 1) t
            rw [hq2]
            simp
          rw [hstep]
          exact ih (i + 1) j (by omega) (by omega) hstop
            (fun k hk1 hk2 => hmin k (by omega) hk2)

/-- C9 amended: one interning insertion scans the slots in order and acts at
the first slot that either holds a pointer equal to the name or is empty:
in the first case nothing is written, in the second the name is written
there and the following slot (index + 1 modulo 32) is cleared; when no slot
stops the scan the ring is left entirely unchanged. (The original claim
said the pointer equal case always wins; in fact an empty slot that comes
earlier in the scan wins and causes a duplicate insertion.) -/
theorem internStep_spec_C9 (t : List (Option Ptr)) (p : Ptr) :
    ((∀ j, j < FILENAME_COUNT → ¬ stopSlot t p j) → internStep t p = t)
    ∧ (∀ j, j < FILENAME_COUNT → stopSlot t p j → (∀ k, k < j → ¬ stopSlot t p k) →
        ((∃ q, t.getD j none = some q ∧ q.id = p.id) → internStep t p = t)
        ∧ (t.getD j none = none →
            internStep t p = (t.set j (some p)).set ((j + 1) % FILENAME_COUNT) none)) := by
  constructor
  · intro h
    exact internLoop_no_stop p t FILENAME_COUNT 0 (fun k _ hk2 => h k (by omega))
  · intro j hj hstop hmin
    exact internLoop_stop p t FILENAME_COUNT 0 j (Nat.zero_le j) (by omega) hstop
      (fun k _ hk2 => hmin k hk2)

/-- A ring with one interned pointer in slot 0 for the C9 witness. -/
def c9wtable : List (Option Ptr) := [some ⟨1, "a"⟩] ++ List.replicate 31 none

/-- Witness for the amended C9 theorem: reinserting the slot 0 pointer
leaves the ring unchanged, inserting a new pointer writes it into the first
empty slot 1 and clears slot 2. -/
theorem internStep_spec_C9_witness :
    internStep c9wtable ⟨1, "a"⟩ = c9wtable
    ∧ internStep c9wtable ⟨2, "b"⟩
        = (c9wtable.set 1 (some ⟨2, "b"⟩)).set ((1 + 1) % FILENAME_COUNT) none := by
  constructor
  · exact ((internStep_spec_C9 c9wtable ⟨1, "a"⟩).2 0 (by decide) (by decide)
      (fun k hk => absurd hk (by omega))).1 (by decide)
  · refine ((internStep_spec_C9 c9wtable ⟨2, "b"⟩).2 1 (by decide) (by decide) ?_).2 (by decide)
    intro k hk
    have hk0 : k = 0 := by omega
    subst hk0
    decide

/-- C7 counterexample: after the concrete 32 file trace, the claim that
every live subscription with internalName true has its file pointing at an
entry of the interned ring is false: the surviving subscription for f0 is
internal, but the 32nd insertion cleared the slot holding its pointer. -/
theorem interned_invariant_counterexample_C7 :
    ¬ (∀ sub ∈ (run c7trace).subscriptions, sub.internalName = true →
        ∀ p2, sub.file = some p2 → tableHasPtr (run c7trace).fileNames p2 = true) := by
  decide

/-- C9 counterexample: in the ring state faced by the second promotion of
the duplicate insertion trace, a slot (31) already holds a pointer equal to
the inserted name, yet the insertion writes anyway (into the empty slot 0
that the scan meets first), contradicting the claim that nothing is written
when a pointer equal slot exists; the full trace ends with the same pointer
in slots 0 and 31 of the reachable ring. -/
theorem internStep_counterexample_C9 :
    tableHasPtr c9table gptr = true
    ∧ internStep c9table gptr ≠ c9table
    ∧ (internStep c9table gptr).getD 0 none = some gptr
    ∧ (run c9trace).fileNames.getD 0 none = some gptr
    ∧ (run c9trace).fileNames.getD 31 none = some gptr :=
  ⟨by decide, by decide, by decide, by decide, by decide⟩

/-! ## Ring membership at promotion time (claim C7 amended) -/

/-- The ring has at least one empty slot among its 32 positions. -/
def RingEmptySlot (t : List (Option Ptr)) : Prop :=
  ∃ j, j < FILENAME_COUNT ∧ t.getD j none = none

/-- The interning loop never changes the length of the ring. -/
theorem internLoop_length (p : Ptr) (t : List (Option Ptr)) :
    ∀ (fuel i : Nat), (internLoop p fuel i t).length = t.length := by
  intro fuel
  induction fuel with
  | zero => intro i; rfl
  | succ f ih =>
    intro i
    unfold internLoop
    cases hg : t.getD i none with
    | none => simp
    | some q =>
      show (if (q.id == p.id) = true then t else internLoop p f (i + 1) t).length = t.length
      by_cases hq : (q.id == p.id) = true
      · rw [hq]
        simp
      · rw [Bool.eq_false_iff.mpr hq]
        simp only [Bool.false_eq_true, if_false]
        exact ih (i + 1)

/-- One interning insertion never changes the length of the ring. -/
theorem internStep_length (t : List (Option Ptr)) (p : Ptr) :
    (internStep t p).length = t.length :=
  internLoop_length p t FILENAME_COUNT 0

/-- A slot holding a pointer with the right address witnesses ring
membership. -/
theorem tableHasPtr_of_getD (t : List (Option Ptr)) (p q : Ptr) (j : Nat)
    (hj : j < t.length) (hg : t.getD j none = some q) (hid : q.id = p.id) :
    tableHasPtr t p = true := by
  unfold tableHasPtr
  rw [List.any_eq_true]
  rw [List.getD_eq_getElem _ _ hj] at hg
  refine ⟨some q, ?_, by simpa using hid⟩
  rw [← hg]
  exact List.getElem_mem hj

/-- Ring membership produces a slot holding a pointer with the right
address. -/
theorem tableHasPtr_exists (t : List (Option Ptr)) (p : Ptr)
    (h : tableHasPtr t p = true) :
    ∃ j, j < t.length ∧ ∃ q, t.getD j none = some q ∧ q.id = p.id := by
  unfold tableHasPtr at h
  rw [List.any_eq_true] at h
  obtain ⟨s, hs, hp⟩ := h
  obtain ⟨j, hj, hg⟩ := List.getElem_of_mem hs
  cases s with
  | none => simp at hp
  | some q =>
    refine ⟨j, hj, q, ?_, by simpa using hp⟩
    rw [List.getD_eq_getElem _ _ hj, hg]

/-- After inserting a pointer into a ring that has an empty slot or already
holds the pointer, the ring holds the pointer. -/
theorem internStep_keeps (t : List (Option Ptr)) (p : Ptr)
    (hlen : t.length = FILENAME_COUNT)
    (h : RingEmptySlot t ∨ tableHasPtr t p = true) :
    tableHasPtr (internStep t p) p = true := by
  have hex : ∃ k, k < FILENAME_COUNT ∧ stopSlot t p k := by
    rcases h with ⟨j, hj, hg⟩ | h
    · exact ⟨j, hj, Or.inr hg⟩
    · obtain ⟨j, hj, q, hg, hid⟩ := tableHasPtr_exists t p h
      exact ⟨j, by omega, Or.inl ⟨q, hg, hid⟩⟩
  classical
  let P : Nat → Prop := fun k => k < FILENAME_COUNT ∧ stopSlot t p k
  have hP : ∃ k, P k := hex
  let j := Nat.find hP
  have hj : P j := Nat.find_spec hP
  have hmin : ∀ k, k < j → ¬ P k := fun k hk => Nat.find_min hP hk
  have hmin2 : ∀ k, k < j → ¬ stopSlot t p k := by
    intro k hk hs
    exact hmin k hk ⟨by omega, hs⟩
  have hchar := (internStep_spec_C9 t p).2 j hj.1 hj.2 hmin2
  rcases hj.2 with ⟨q, hg, hid⟩ | hg
  · rw [hchar.1 ⟨q, hg, hid⟩]
    exact tableHasPtr_of_getD t p q j (by omega) hg hid
  · rw [hchar.2 hg]
    have h32 : FILENAME_COUNT = 32 := rfl
    have hjlt : j < 32 := by omega
    have hne : (j + 1) % FILENAME_COUNT ≠ j := by
      rw [h32]
      rcases Nat.lt_or_ge (j + 1) 32 with hlt | hge
      · rw [Nat.mod_eq_of_lt hlt]
        omega
      · have hj31 : j = 31 := by omega
        rw [hj31]
        decide
    have hgd : ((t.set j (some p)).set ((j + 1) % FILENAME_COUNT) none).getD j none = some p := by
      have hb : j < ((t.set j (some p)).set ((j + 1) % FILENAME_COUNT) none).length := by
        simp only [List.length_set]
        omega
      rw [List.getD_eq_getElem _ _ hb]
      rw [List.getElem_set_ne hne]
      exact List.getElem_set_self (by simp only [List.length_set]; omega)
    exact tableHasPtr_of_getD _ p p j (by simp only [List.length_set]; omega) hgd rfl

/-- An insertion into a 32 slot ring with an empty slot leaves at least one
empty slot (the insertion itself clears the following slot). -/
theorem internStep_keeps_empty (t : List (Option Ptr)) (p : Ptr)
    (hlen : t.length = FILENAME_COUNT) (h : RingEmptySlot t) :
    RingEmptySlot (internStep t p) := by
  have hex : ∃ k, k < FILENAME_COUNT ∧ stopSlot t p k := by
    obtain ⟨j, hj, hg⟩ := h
    exact ⟨j, hj, Or.inr hg⟩
  classical
  let P : Nat → Prop := fun k => k < FILENAME_COUNT ∧ stopSlot t p k
  have hP : ∃ k, P k := hex
  let j := Nat.find hP
  have hj : P j := Nat.find_spec hP
  have hmin2 : ∀ k, k < j → ¬ stopSlot t p k := by
    intro k hk hs
    exact Nat.find_min hP hk ⟨by omega, hs⟩
  have hchar := (internStep_spec_C9 t p).2 j hj.1 hj.2 hmin2
  rcases hj.2 with ⟨q, hg, hid⟩ | hg
  · rw [hchar.1 ⟨q, hg, hid⟩]
    exact h
  · rw [hchar.2 hg]
    refine ⟨(j + 1) % FILENAME_COUNT, ?_, ?_⟩
    · exact Nat.mod_lt _ (by decide)
    · have hb : (j + 1) % FILENAME_COUNT
          < ((t.set j (some p)).set ((j + 1) % FILENAME_COUNT) none).length := by
        simp only [List.length_set]
        rw [hlen]
        exact Nat.mod_lt _ (by decide)
      rw [List.getD_eq_getElem _ _ hb]
      exact List.getElem_set_self hb

/-- isMatch either returns the subscription and the ring unchanged, or (on
a content match of a non internal filter) returns the subscription promoted
to the event pointer and the ring extended by that pointer. -/
theorem isMatch_shape (sub : Subscription) (fns : List (Option Ptr)) (lvl : Log_Level)
    (p : Ptr) (line : Nat) :
    ((isMatch sub fns lvl p line).2.1 = sub ∧ (isMatch sub fns lvl p line).2.2 = fns)
    ∨ ((isMatch sub fns lvl p line).2.1 = { sub with file := some p, internalName := true }
        ∧ (isMatch sub fns lvl p line).2.2 = internStep fns p) := by
  unfold isMatch
  cases sub.file with
  | none => exact Or.inl ⟨rfl, rfl⟩
  | some f =>
    by_cases h1 : sub.internalName
    · simp only [h1, if_true]
      split_ifs with h2
      · exact Or.inl ⟨rfl, rfl⟩
      · exact Or.inl ⟨rfl, rfl⟩
    · simp only [h1, Bool.false_eq_true, if_false]
      split_ifs with h3
      · exact Or.inl ⟨rfl, rfl⟩
      · exact Or.inr ⟨rfl, rfl⟩

/-- One step of the doLog loop conses the processed head subscription and
recurses with the ring left by its isMatch call and some message state. -/
theorem doLogGo_cons_shape (lvl : Log_Level) (p : Ptr) (line : Nat) (fmt : String)
    (now : Nat) (sub : Subscription) (rest : List Subscription)
    (fns : List (Option Ptr)) (msg : Option LogMsg) :
    ∃ msg2 : Option LogMsg,
      (doLogGo lvl p line fmt now (sub :: rest) fns msg).subs
        = (isMatch sub fns lvl p line).2.1
          :: (doLogGo lvl p line fmt now rest (isMatch sub fns lvl p line).2.2 msg2).subs
      ∧ (doLogGo lvl p line fmt now (sub :: rest) fns msg).fileNames
          = (doLogGo lvl p line fmt now rest (isMatch sub fns lvl p line).2.2 msg2).fileNames := by
  by_cases hb : (isMatch sub fns lvl p line).1
  · refine ⟨some (match msg with
      | some m0 => m0
      | none => makeLogMessage lvl p line fmt (isMatch sub fns lvl p line).2.1.streamId now),
      ?_, ?_⟩
    · simp only [doLogGo, hb, if_true]
    · simp only [doLogGo, hb, if_true]
  · refine ⟨msg, ?_, ?_⟩
    · simp only [doLogGo, hb, Bool.false_eq_true, if_false]
    · simp only [doLogGo, hb, Bool.false_eq_true, if_false]

/-- The doLog pass over the subscription array preserves the array length,
the ring length and the empty slot supply, never loses the event pointer
from the ring, and any subscription that becomes internal during the pass
ends with the event pointer as its file and with that pointer present in
the ring. -/
theorem doLogGo_promotion (lvl : Log_Level) (p : Ptr) (line : Nat) (fmt : String)
    (now : Nat) :
    ∀ (subs : List Subscription) (fns : List (Option Ptr)) (msg : Option LogMsg),
    fns.length = FILENAME_COUNT → RingEmptySlot fns →
    (doLogGo lvl p line fmt now subs fns msg).subs.length = subs.length
    ∧ (doLogGo lvl p line fmt now subs fns msg).fileNames.length = FILENAME_COUNT
    ∧ RingEmptySlot (doLogGo lvl p line fmt now subs fns msg).fileNames
    ∧ (tableHasPtr fns p = true →
        tableHasPtr (doLogGo lvl p line fmt now subs fns msg).fileNames p = true)
    ∧ (∀ i : Nat, i < subs.length →
        (subs.getD i default).internalName = false →
        ((doLogGo lvl p line fmt now subs fns msg).subs.getD i default).internalName = true →
        ((doLogGo lvl p line fmt now subs fns msg).subs.getD i default).file = some p
          ∧ tableHasPtr (doLogGo lvl p line fmt now subs fns msg).fileNames p = true) := by
  intro subs
  induction subs with
  | nil =>
    intro fns msg hlen hemp
    refine ⟨rfl, hlen, hemp, fun h => h, ?_⟩
    intro i hi
    exact absurd hi (by simp)
  | cons sub rest ih =>
    intro fns msg hlen hemp
    obtain ⟨msg2, hsubs, hfns⟩ := doLogGo_cons_shape lvl p line fmt now sub rest fns msg
    have hinv : (isMatch sub fns lvl p line).2.2.length = FILENAME_COUNT
        ∧ RingEmptySlot (isMatch sub fns lvl p line).2.2
        ∧ (tableHasPtr fns p = true → tableHasPtr (isMatch sub fns lvl p line).2.2 p = true) := by
      rcases isMatch_shape sub fns lvl p line with ⟨h1, h2⟩ | ⟨h1, h2⟩
      · rw [h2]
        exact ⟨hlen, hemp, fun h => h⟩
      · rw [h2]
        refine ⟨?_, ?_, ?_⟩
        · rw [internStep_length, hlen]
        · exact internStep_keeps_empty fns p hlen hemp
        · intro h
          exact internStep_keeps fns p hlen (Or.inr h)
    obtain ⟨ihlen, ihfl, ihemp, ihkeep, ihprom⟩ :=
      ih (isMatch sub fns lvl p line).2.2 msg2 hinv.1 hinv.2.1
    refine ⟨?_, ?_, ?_, ?_, ?_⟩
    · rw [hsubs]
      simp [ihlen]
    · rw [hfns]
      exact ihfl
    · rw [hfns]
      exact ihemp
    · intro h
      rw [hfns]
      exact ihkeep (hinv.2.2 h)
    · intro i hi hpre hpost
      cases i with
      | zero =>
        rw [hsubs] at hpost
        simp only [List.getD_cons_zero] at hpre hpost
        rcases isMatch_shape sub fns lvl p line with ⟨h1, h2⟩ | ⟨h1, h2⟩
        · rw [h1, hpre] at hpost
          exact absurd hpost (by decide)
        · rw [hsubs]
          simp only [List.getD_cons_zero]
          rw [h1]
          refine ⟨rfl, ?_⟩
          rw [hfns]
          refine ihkeep ?_
          rw [h2]
          exact internStep_keeps fns p hlen (Or.inl hemp)
      | succ j =>
        have hj : j < rest.length := by
          simp only [List.length_cons] at hi
          omega
        rw [hsubs] at hpost
        rw [hsubs]
        simp only [List.getD_cons_succ] at hpre hpost ⊢
        have h3 := ihprom j hj hpre hpost
        refine ⟨h3.1, ?_⟩
        rw [hfns]
        exact h3.2

/-- subscribe never writes the interned file name ring, on any path. -/
theorem subscribe_fileNames (log : AdminLog) (levelName : Option String)
    (lineArg : Option Int) (fileArg : Option String) (txid : String)
    (allocId ptrId sid : Nat) :
    (subscribe log levelName lineArg fileArg txid allocId ptrId sid).1.fileNames
      = log.fileNames := by
  unfold subscribe
  dsimp only
  split_ifs <;> rfl

/-- unsubscribe never writes the interned file name ring, on any path. -/
theorem unsubscribe_fileNames (log : AdminLog) (hex : String) (txid : String) :
    (unsubscribe log hex txid).1.fileNames = log.fileNames := by
  unfold unsubscribe
  cases hd : hexDecode8 hex with
  | none => rfl
  | some sid =>
    cases hf : log.subscriptions.findIdx? (fun sub => sub.streamId == sid) with
    | none =>
      simp only [hf]
    | some i =>
      simp only [hf]

/-- The ring well formedness carried through every reachable state: correct
length and at least one empty slot. -/
def TableOk (s : AdminLog) : Prop :=
  s.fileNames.length = FILENAME_COUNT ∧ RingEmptySlot s.fileNames

/-- Every operation preserves the ring well formedness. -/
theorem step_tableOk (s : AdminLog) (op : Op) (h : TableOk s) : TableOk (step s op) := by
  cases op with
  | sub a b c d e f g =>
    unfold step
    constructor
    · rw [subscribe_fileNames]
      exact h.1
    · rw [subscribe_fileNames]
      exact h.2
  | unsub a b =>
    unfold step
    constructor
    · rw [unsubscribe_fileNames]
      exact h.1
    · rw [unsubscribe_fileNames]
      exact h.2
  | log lvl p line fmt now =>
    unfold step doLog
    obtain ⟨-, hlen2, hemp2, -, -⟩ :=
      doLogGo_promotion lvl p line fmt now s.subscriptions s.fileNames none h.1 h.2
    exact ⟨hlen2, hemp2⟩

/-- Runs preserve the ring well formedness. -/
theorem runFrom_tableOk (ops : List Op) :
    ∀ s : AdminLog, TableOk s → TableOk (runFrom s ops) := by
  induction ops with
  | nil => exact fun s h => h
  | cons op rest ih =>
    intro s h
    exact ih _ (step_tableOk s op h)

/-- Every reachable state has a well formed ring: 32 slots and at least one
empty slot, so the interning scan always finds a stopping slot. -/
theorem run_tableOk (ops : List Op) : TableOk (run ops) := by
  refine runFrom_tableOk ops initState ⟨by simp [initState], 0, by decide, ?_⟩
  simp [initState]

/-- When the subscribe file resolution marks the subscription internal, the
chosen file pointer is one of the ring entries. -/
theorem subscribeFile_internal (fns : List (Option Ptr)) (fileArg : Option String)
    (ptrId : Nat) (h : (subscribeFile fns fileArg ptrId).2 = true) :
    ∃ q, (subscribeFile fns fileArg ptrId).1 = some q ∧ some q ∈ fns := by
  unfold subscribeFile at h ⊢
  cases fileArg with
  | none => simp at h
  | some fstr =>
    dsimp only at h ⊢
    cases hf : fns.findSome? (fun slot =>
        match slot with
        | some q => if q.content = fstr then some q else none
        | none => none) with
    | none =>
      rw [hf] at h
      simp at h
    | some q =>
      refine ⟨q, rfl, ?_⟩
      obtain ⟨slot, hmem, hslot⟩ := List.exists_of_findSome?_eq_some hf
      cases slot with
      | none => simp at hslot
      | some q2 =>
        by_cases hc : q2.content = fstr
        · simp only [hc, if_true] at hslot
          injection hslot with hq
          rw [← hq]
          exact hmem
        · simp only [hc, if_false] at hslot
          cases hslot

/-- C7 amended: in every reachable state the ring keeps at least one empty
slot, and a subscription points at a ring entry at the moment it becomes
internal: a subscription promoted during a log call ends that call with the
event pointer as its file and that pointer in the ring, and a subscription
created internal by subscribe has its file among the ring entries. (The
original claim that this membership holds of every reachable state is
false: a later insertion may evict the entry while the subscription keeps
the pointer, as the counterexample trace shows.) -/
theorem promotion_interns_C7 (ops : List Op) :
    ((run ops).fileNames.length = FILENAME_COUNT ∧ RingEmptySlot (run ops).fileNames)
    ∧ (∀ (lvl : Log_Level) (p : Ptr) (line : Nat) (fmt : String) (now : Nat) (i : Nat),
        i < (run ops).subscriptions.length →
        (((run ops).subscriptions.getD i default).internalName = false) →
        (((doLog (run ops) lvl p line fmt now).1.subscriptions.getD i default).internalName
          = true) →
        ((doLog (run ops) lvl p line fmt now).1.subscriptions.getD i default).file = some p
          ∧ tableHasPtr (doLog (run ops) lvl p line fmt now).1.fileNames p = true)
    ∧ (∀ (levelName : Option String) (lineArg : Option Int) (fileArg : Option String)
        (txid : String) (aId pId sid : Nat) (q : Ptr),
        (newSubscription (requestedLevel levelName) (run ops).fileNames lineArg fileArg txid
            aId pId sid).internalName = true →
        (newSubscription (requestedLevel levelName) (run ops).fileNames lineArg fileArg txid
            aId pId sid).file = some q →
        tableHasPtr
          (subscribe (run ops) levelName lineArg fileArg txid aId pId sid).1.fileNames q
          = true) := by
  obtain ⟨hlen, hemp⟩ := run_tableOk ops
  refine ⟨⟨hlen, hemp⟩, ?_, ?_⟩
  · intro lvl p line fmt now i hi hpre hpost
    obtain ⟨-, -, -, -, hprom⟩ :=
      doLogGo_promotion lvl p line fmt now (run ops).subscriptions (run ops).fileNames none
        hlen hemp
    exact hprom i hi hpre hpost
  · intro levelName lineArg fileArg txid aId pId sid q hint hfile
    rw [subscribe_fileNames]
    have hint2 : (subscribeFile (run ops).fileNames fileArg pId).2 = true := hint
    have hfile2 : (subscribeFile (run ops).fileNames fileArg pId).1 = some q := hfile
    obtain ⟨q2, hq2, hmem⟩ := subscribeFile_internal (run ops).fileNames fileArg pId hint2
    have hqq : q2 = q := by
      have := hq2.symm.trans hfile2
      injection this
    unfold tableHasPtr
    rw [List.any_eq_true]
    refine ⟨some q, ?_, by simp⟩
    rw [← hqq]
    exact hmem

/-- Witness for the amended C7 theorem: a concrete promotion ends with the
event pointer as the subscription file and in the ring. -/
theorem promotion_interns_C7_witness :
    ((doLog (run [Op.sub none none (some "a") "t" 1 2 3]) .DEBUG ⟨9, "a"⟩ 0 "m" 0).1.subscriptions.getD
        0 default).file = some ⟨9, "a"⟩
    ∧ tableHasPtr
        (doLog (run [Op.sub none none (some "a") "t" 1 2 3]) .DEBUG ⟨9, "a"⟩ 0 "m" 0).1.fileNames
        ⟨9, "a"⟩ = true :=
  (promotion_interns_C7 [Op.sub none none (some "a") "t" 1 2 3]).2.1 .DEBUG ⟨9, "a"⟩ 0 "m" 0 0
    (by decide) (by decide) (by decide)

/-! ## Content equivalence of promoted and unpromoted filters (claim C8) -/

/-- One interning insertion either leaves the ring unchanged or writes the
pointer into some empty slot and clears the following slot. -/
theorem internStep_cases (t : List (Option Ptr)) (p : Ptr) :
    internStep t p = t
    ∨ ∃ j, j < FILENAME_COUNT ∧ t.getD j none = none
        ∧ internStep t p = (t.set j (some p)).set ((j + 1) % FILENAME_COUNT) none := by
  classical
  by_cases hex : ∃ k, k < FILENAME_COUNT ∧ stopSlot t p k
  · let P : Nat → Prop := fun k => k < FILENAME_COUNT ∧ stopSlot t p k
    have hP : ∃ k, P k := hex
    have hj : P (Nat.find hP) := Nat.find_spec hP
    have hmin2 : ∀ k, k < Nat.find hP → ¬ stopSlot t p k := by
      intro k hk hs
      exact Nat.find_min hP hk ⟨by omega, hs⟩
    have hchar := (internStep_spec_C9 t p).2 (Nat.find hP) hj.1 hj.2 hmin2
    rcases hj.2 with ⟨q, hg, hid⟩ | hg
    · exact Or.inl (hchar.1 ⟨q, hg, hid⟩)
    · exact Or.inr ⟨Nat.find hP, hj.1, hg, hchar.2 hg⟩
  · push_neg at hex
    refine Or.inl ((internStep_spec_C9 t p).1 ?_)
    intro k hk
    exact hex k hk

/-- Every entry of the ring after an insertion was already an entry before,
or is the inserted pointer. -/
theorem internStep_entries (t : List (Option Ptr)) (p : Ptr) :
    ∀ slot ∈ internStep t p, ∀ q, slot = some q → some q ∈ t ∨ q = p := by
  intro slot hmem q hq
  rcases internStep_cases t p with hc | ⟨j, hj, hg, hc⟩
  · rw [hc] at hmem
    subst hq
    exact Or.inl hmem
  · rw [hc] at hmem
    rcases List.mem_or_eq_of_mem_set hmem with hmem2 | hnone
    · rcases List.mem_or_eq_of_mem_set hmem2 with hmem3 | hsome
      · subst hq
        exact Or.inl hmem3
      · rw [hq] at hsome
        injection hsome with he
        exact Or.inr he
    · rw [hq] at hnone
      cases hnone

/-- One isMatch call keeps the internal file of the subscription and every
ring entry inside a pointer collection that contains the event pointer. -/
theorem isMatch_good (sub : Subscription) (fns : List (Option Ptr)) (lvl : Log_Level)
    (p : Ptr) (line : Nat) (ps : List Ptr) (hp : p ∈ ps)
    (hsub : sub.internalName = true → ∀ q, sub.file = some q → q ∈ ps)
    (hfns : ∀ slot ∈ fns, ∀ q, slot = some q → q ∈ ps) :
    ((isMatch sub fns lvl p line).2.1.internalName = true →
      ∀ q, (isMatch sub fns lvl p line).2.1.file = some q → q ∈ ps)
    ∧ (∀ slot ∈ (isMatch sub fns lvl p line).2.2, ∀ q, slot = some q → q ∈ ps) := by
  rcases isMatch_shape sub fns lvl p line with ⟨h1, h2⟩ | ⟨h1, h2⟩
  · rw [h1, h2]
    exact ⟨hsub, hfns⟩
  · rw [h1, h2]
    constructor
    · intro _ q hq
      simp only [] at hq
      injection hq with he
      rw [← he]
      exact hp
    · intro slot hmem q hq
      rcases internStep_entries fns p slot hmem q hq with hin | he
      · exact hfns (some q) hin q rfl
      · rw [he]
        exact hp

/-- The central event pointer invariant: every internal file filter and
every ring entry is the file pointer of some earlier log event (taken here
from the collection ps). -/
def GoodState (ps : List Ptr) (s : AdminLog) : Prop :=
  (∀ sub ∈ s.subscriptions, sub.internalName = true → ∀ p, sub.file = some p → p ∈ ps)
  ∧ (∀ slot ∈ s.fileNames, ∀ p, slot = some p → p ∈ ps)

/-- A doLog pass keeps the event pointer invariant, for any collection that
contains the pointer of the current event. -/
theorem doLogGo_good (lvl : Log_Level) (p : Ptr) (line : Nat) (fmt : String) (now : Nat)
    (ps : List Ptr) (hp : p ∈ ps) :
    ∀ (subs : List Subscription) (fns : List (Option Ptr)) (msg : Option LogMsg),
    (∀ sub ∈ subs, sub.internalName = true → ∀ q, sub.file = some q → q ∈ ps) →
    (∀ slot ∈ fns, ∀ q, slot = some q → q ∈ ps) →
    (∀ sub ∈ (doLogGo lvl p line fmt now subs fns msg).subs,
        sub.internalName = true → ∀ q, sub.file = some q → q ∈ ps)
    ∧ (∀ slot ∈ (doLogGo lvl p line fmt now subs fns msg).fileNames,
        ∀ q, slot = some q → q ∈ ps) := by
  intro subs
  induction subs with
  | nil =>
    intro fns msg hsubs hfns
    exact ⟨hsubs, hfns⟩
  | cons sub rest ih =>
    intro fns msg hsubs hfns
    obtain ⟨msg2, hs, hf⟩ := doLogGo_cons_shape lvl p line fmt now sub rest fns msg
    have hone := isMatch_good sub fns lvl p line ps hp
      (hsubs sub (List.mem_cons_self sub rest)) hfns
    have hrest : ∀ s2 ∈ rest, s2.internalName = true → ∀ q, s2.file = some q → q ∈ ps :=
      fun s2 hs2 => hsubs s2 (List.mem_cons_of_mem sub hs2)
    obtain ⟨ihsubs, ihfns⟩ := ih (isMatch sub fns lvl p line).2.2 msg2 hrest hone.2
    constructor
    · intro s2 hs2
      rw [hs] at hs2
      rcases List.mem_cons.mp hs2 with he | hin
      · rw [he]
        exact hone.1
      · exact ihsubs s2 hin
    · intro slot hslot
      rw [hf] at hslot
      exact ihfns slot hslot

/-- A subscribe call that does not reply with success leaves the whole
registry untouched. -/
theorem subscribe_fail_state (s : AdminLog) (a : Option String) (b : Option Int)
    (c : Option String) (d : String) (e f g : Nat)
    (hok : (subscribe s a b c d e f g).2.1.error ≠ "none") :
    (subscribe s a b c d e f g).1 = s := by
  by_cases h1 : requestedLevel a = Log_Level.INVALID
  · unfold subscribe
    simp [h1]
  · by_cases hb : lineArgBad b = true
    · unfold subscribe
      simp [h1, hb]
    · by_cases h3 : MAX_SUBSCRIPTIONS ≤ s.subscriptions.length
      · unfold subscribe
        simp [h1, hb, h3]
      · exfalso
        apply hok
        unfold subscribe
        simp [h1, hb, h3]

/-- Every subscription live after an unsubscribe call was live before. -/
theorem unsubscribe_subs_subset (log : AdminLog) (hex : String) (txid : String) :
    ∀ sub ∈ (unsubscribe log hex txid).1.subscriptions, sub ∈ log.subscriptions := by
  unfold unsubscribe
  cases hd : hexDecode8 hex with
  | none => exact fun sub h => h
  | some sid =>
    dsimp only
    cases hf : log.subscriptions.findIdx? (fun sub => sub.streamId == sid) with
    | none =>
      exact fun sub h => h
    | some i =>
      intro sub h
      obtain ⟨hi, -, -⟩ := List.findIdx?_eq_some_iff_getElem.mp hf
      have h2 := List.mem_of_mem_take h
      rcases List.mem_or_eq_of_mem_set h2 with hin | he
      · exact hin
      · rw [he]
        have hn : log.subscriptions.length - 1 < log.subscriptions.length := by omega
        rw [List.getD_eq_getElem log.subscriptions default hn]
        exact List.getElem_mem hn

/-- Every operation keeps the event pointer invariant, provided the
collection covers the pointer of a log operation. -/
theorem step_good (ps : List Ptr) (s : AdminLog) (op : Op) (hgs : GoodState ps s)
    (hop : ∀ q, opEventPtr op = some q → q ∈ ps) : GoodState ps (step s op) := by
  obtain ⟨hsubs, hfns⟩ := hgs
  cases op with
  | sub a b c d e f g =>
    unfold step
    by_cases hok : (subscribe s a b c d e f g).2.1.error = "none"
    · obtain ⟨hshape, hfn⟩ := subscribe_success_shape s a b c d e f g hok
      show GoodState ps (subscribe s a b c d e f g).1
      constructor
      · intro sub2 hmem hint q hq
        rw [hshape] at hmem
        rcases List.mem_append.mp hmem with hin | hnew
        · exact hsubs sub2 hin hint q hq
        · rcases List.mem_singleton.mp hnew with he
          rw [he] at hint hq
          have hint2 : (subscribeFile s.fileNames c f).2 = true := hint
          have hq2 : (subscribeFile s.fileNames c f).1 = some q := hq
          obtain ⟨q2, hq3, hmem2⟩ := subscribeFile_internal s.fileNames c f hint2
          have : q2 = q := by
            have := hq3.symm.trans hq2
            injection this
          rw [← this]
          exact hfns (some q2) hmem2 q2 rfl
      · intro slot hslot q hq
        rw [hfn] at hslot
        exact hfns slot hslot q hq
    · show GoodState ps (subscribe s a b c d e f g).1
      rw [subscribe_fail_state s a b c d e f g hok]
      exact ⟨hsubs, hfns⟩
  | unsub a b =>
    unfold step
    show GoodState ps (unsubscribe s a b).1
    constructor
    · intro sub2 hmem
      exact hsubs sub2 (unsubscribe_subs_subset s a b sub2 hmem)
    · intro slot hslot
      rw [unsubscribe_fileNames] at hslot
      exact hfns slot hslot
  | log lvl p line fmt now =>
    unfold step doLog
    have hp : p ∈ ps := hop p rfl
    obtain ⟨h1, h2⟩ := doLogGo_good lvl p line fmt now ps hp s.subscriptions s.fileNames none
      hsubs hfns
    exact ⟨h1, h2⟩

/-- The event pointers of a trace tail, and of its head operation, are
event pointers of the whole trace. -/
theorem eventPtrs_cons (op : Op) (rest : List Op) :
    (∀ x ∈ eventPtrs rest, x ∈ eventPtrs (op :: rest))
    ∧ ∀ q, opEventPtr op = some q → q ∈ eventPtrs (op :: rest) := by
  unfold eventPtrs
  rw [List.filterMap_cons]
  cases ho : opEventPtr op with
  | none =>
    refine ⟨fun x h => h, fun q hq => ?_⟩
    cases hq
  | some v =>
    refine ⟨fun x h => List.mem_cons_of_mem v h, fun q hq => ?_⟩
    injection hq with he
    rw [← he]
    exact List.mem_cons_self v _

/-- Runs keep the event pointer invariant. -/
theorem runFrom_good (ps : List Ptr) :
    ∀ (ops : List Op) (s : AdminLog), GoodState ps s →
    (∀ q ∈ eventPtrs ops, q ∈ ps) → GoodState ps (runFrom s ops) := by
  intro ops
  induction ops with
  | nil => exact fun s h _ => h
  | cons op rest ih =>
    intro s h hev
    refine ih _ (step_good ps s op h ?_) ?_
    · intro q hq
      exact hev q ((eventPtrs_cons op rest).2 q hq)
    · intro q hq
      exact hev q ((eventPtrs_cons op rest).1 q hq)

/-- In every reachable state, every internal file filter and every ring
entry is the file pointer of some log event of the trace. -/
theorem run_good (ops : List Op) : GoodState (eventPtrs ops) (run ops) := by
  refine runFrom_good (eventPtrs ops) ops initState ⟨?_, ?_⟩ (fun q h => h)
  · intro sub h
    cases h
  · intro slot hmem q hq
    have he := List.eq_of_mem_replicate hmem
    rw [he] at hq
    cases hq

/-- C8: under address consistency of the event file pointers (each source
file presents one address, so two event pointers agree on address exactly
when they agree on contents - the discipline the C program gets from interned
FILE literals), two live subscriptions with identical filter text and
identical level and line settings accept or reject any log event
identically, in every reachable state, whether or not either of them has
been promoted to interned pointer comparison. -/
theorem match_content_equivalence_C8 (ops : List Op) (p : Ptr)
    (hcons : PtrsConsistent (eventPtrs ops ++ [p]))
    (i j : Nat) (hi : i < (run ops).subscriptions.length)
    (hj : j < (run ops).subscriptions.length)
    (hlev : ((run ops).subscriptions.getD i default).level
        = ((run ops).subscriptions.getD j default).level)
    (hline : ((run ops).subscriptions.getD i default).lineNum
        = ((run ops).subscriptions.getD j default).lineNum)
    (hfile : ((run ops).subscriptions.getD i default).file.map Ptr.content
        = ((run ops).subscriptions.getD j default).file.map Ptr.content)
    (lvl : Log_Level) (line : Nat) :
    (isMatch ((run ops).subscriptions.getD i default) (run ops).fileNames lvl p line).1
      = (isMatch ((run ops).subscriptions.getD j default) (run ops).fileNames lvl p line).1 := by
  have hboo : ∀ a b : Bool, (a = true ↔ b = true) → a = b := by
    intro a b h
    cases a <;> cases b <;> simp_all
  set si := (run ops).subscriptions.getD i default with hsidef
  set sj := (run ops).subscriptions.getD j default with hsjdef
  have hsimem : si ∈ (run ops).subscriptions := by
    rw [hsidef, List.getD_eq_getElem _ _ hi]
    exact List.getElem_mem hi
  have hsjmem : sj ∈ (run ops).subscriptions := by
    rw [hsjdef, List.getD_eq_getElem _ _ hj]
    exact List.getElem_mem hj
  have hA : ∀ s : Subscription, s ∈ (run ops).subscriptions → ∀ f, s.file = some f →
      (((s.internalName = true ∧ p.id = f.id) ∨ (s.internalName = false ∧ p.content = f.content))
        ↔ p.content = f.content) := by
    intro s hs f hf
    cases hint : s.internalName with
    | false => simp [hint]
    | true =>
      have hfev : f ∈ eventPtrs ops := (run_good ops).1 s hs hint f hf
      have hp2 : p ∈ eventPtrs ops ++ [p] :=
        List.mem_append_right _ (List.mem_singleton.mpr rfl)
      have hf2 : f ∈ eventPtrs ops ++ [p] := List.mem_append_left _ hfev
      have hiff2 := hcons p hp2 f hf2
      simp [hint, hiff2]
  apply hboo
  rw [isMatch_fst_iff, isMatch_fst_iff, hlev, hline]
  cases hfi2 : si.file with
  | none =>
    cases hfj2 : sj.file with
    | none => simp [hfi2, hfj2]
    | some fj =>
      rw [hfi2, hfj2] at hfile
      simp at hfile
  | some fi =>
    cases hfj2 : sj.file with
    | none =>
      rw [hfi2, hfj2] at hfile
      simp at hfile
    | some fj =>
      have hcont : fi.content = fj.content := by
        rw [hfi2, hfj2] at hfile
        simpa using hfile
      have hAi := hA si hsimem fi hfi2
      have hAj := hA sj hsjmem fj hfj2
      simp only [reduceCtorEq, false_or, Option.some.injEq, exists_eq_left']
      apply and_congr_left'
      rw [hAi, hAj, hcont]

/-- Two subscriptions with the same filter text for the C8 witness. -/
def c8ops : List Op :=
  [Op.sub none none (some "a") "t1" 1 2 3, Op.sub none none (some "a") "t2" 4 5 6]

/-- Witness for C8 at a concrete state with two subscriptions of identical
filter text: the verdicts coincide. -/
theorem match_content_equivalence_C8_witness :
    (isMatch ((run c8ops).subscriptions.getD 0 default) (run c8ops).fileNames
        .DEBUG ⟨9, "a"⟩ 5).1
      = (isMatch ((run c8ops).subscriptions.getD 1 default) (run c8ops).fileNames
          .DEBUG ⟨9, "a"⟩ 5).1 :=
  match_content_equivalence_C8 c8ops ⟨9, "a"⟩ (by decide) 0 1 (by decide) (by decide)
    (by decide) (by decide) (by decide) .DEBUG 5

/-! ## subscribe only reads the ring (claim C10) -/

/-- C10: subscribe leaves the interned file name ring unchanged on every
path; it only reads the ring: when a content equal entry exists the
subscription reuses that interned pointer (internal), and when no entry is
content equal the name is copied into the subscription allocation at a
fresh address (not internal). Insertions happen only in the match engine
during log emission. -/
theorem subscribe_reads_table_C10 (log : AdminLog) (levelName : Option String)
    (lineArg : Option Int) (fileArg : Option String) (txid : String)
    (allocId ptrId sid : Nat) :
    ((subscribe log levelName lineArg fileArg txid allocId ptrId sid).1.fileNames
        = log.fileNames)
    ∧ (∀ fstr : String, fileArg = some fstr →
        (∀ q : Ptr, subscribeFile log.fileNames fileArg ptrId = (some q, true) →
            some q ∈ log.fileNames ∧ q.content = fstr)
        ∧ ((∀ slot ∈ log.fileNames, ∀ q : Ptr, slot = some q → q.content ≠ fstr) →
            subscribeFile log.fileNames fileArg ptrId = (some ⟨ptrId, fstr⟩, false))) := by
  refine ⟨subscribe_fileNames log levelName lineArg fileArg txid allocId ptrId sid, ?_⟩
  intro fstr hf
  subst hf
  constructor
  · intro q hq
    unfold subscribeFile at hq
    dsimp only at hq
    cases hfind : log.fileNames.findSome? (fun slot =>
        match slot with
        | some q2 => if q2.content = fstr then some q2 else none
        | none => none) with
    | none =>
      rw [hfind] at hq
      cases hq
    | some q2 =>
      rw [hfind] at hq
      injection hq with hq1 hq2
      injection hq1 with hq1
      obtain ⟨slot, hmem, hslot⟩ := List.exists_of_findSome?_eq_some hfind
      cases slot with
      | none => cases hslot
      | some q3 =>
        by_cases hc : q3.content = fstr
        · simp only [hc, if_true] at hslot
          injection hslot with he
          constructor
          · rw [← hq1, ← he]
            exact hmem
          · rw [← hq1, ← he]
            exact hc
        · simp only [hc, if_false] at hslot
          cases hslot
  · intro hno
    unfold subscribeFile
    dsimp only
    have hfind : log.fileNames.findSome? (fun slot =>
        match slot with
        | some q2 => if q2.content = fstr then some q2 else none
        | none => none) = none := by
      rw [List.findSome?_eq_none_iff]
      intro slot hmem
      cases slot with
      | none => rfl
      | some q2 =>
        have hne := hno (some q2) hmem q2 rfl
        simp only [hne, if_false]
    rw [hfind]

/-- A trace interning the pointer of file a, for the C10 witness. -/
def c10ops : List Op :=
  [Op.sub none none (some "a") "t" 1 2 3, Op.log .DEBUG ⟨9, "a"⟩ 0 "m" 0]

/-- Witness for C10: after interning the pointer of file a, a subscribe for
the same name leaves the ring unchanged and reuses the interned entry. -/
theorem subscribe_reads_table_C10_witness :
    (subscribe (run c10ops) none none (some "a") "t" 10 11 12).1.fileNames
        = (run c10ops).fileNames
    ∧ some (⟨9, "a"⟩ : Ptr) ∈ (run c10ops).fileNames
    ∧ (⟨9, "a"⟩ : Ptr).content = "a" := by
  have h := subscribe_reads_table_C10 (run c10ops) none none (some "a") "t" 10 11 12
  have h2 := (h.2 "a" rfl).1 ⟨9, "a"⟩ (by decide)
  exact ⟨h.1, h2.1, h2.2⟩

end Cjdns
